import Mathlib

/-!
Verification of the `KeyString` core (`src/value/keystring.rs`).

The Rust type is `pub struct KeyString(Bytes)`: an immutable wrapper over a
shared byte buffer whose contents are always the UTF-8 encoding of a string.
We embed the byte buffer as `List Nat` (each entry a byte value) and model
the UTF-8 encoding and decoding explicitly, so that the unchecked
reinterpretation performed by `KeyString::as_str` is a real function of the
stored bytes and not of a remembered string.
-/

/-- UTF-8 encoding of a single Unicode code point, as performed by the Rust
`String`/`str` machinery backing `Bytes::from(String)`. -/
def utf8EncodeCodepoint (c : Nat) : List Nat :=
  if c < 0x80 then [c]
  else if c < 0x800 then [0xC0 + c / 64, 0x80 + c % 64]
  else if c < 0x10000 then [0xE0 + c / 4096, 0x80 + c / 64 % 64, 0x80 + c % 64]
  else [0xF0 + c / 0x40000, 0x80 + c / 4096 % 64, 0x80 + c / 64 % 64, 0x80 + c % 64]

/-- The UTF-8 byte sequence backing a Rust `String`. -/
def utf8Encode (s : String) : List Nat :=
  s.data.flatMap (fun c => utf8EncodeCodepoint c.toNat)

/-- Decode the first UTF-8 scalar value from a byte sequence, returning the
code point and the remaining bytes; `none` when the sequence does not start
with a valid (shortest-form, non-surrogate, in-range) UTF-8 encoding. -/
def utf8DecodeFirst : List Nat → Option (Nat × List Nat)
  | [] => none
  | b0 :: rest =>
    if b0 < 0x80 then some (b0, rest)
    else if b0 < 0xC0 then none
    else if b0 < 0xE0 then
      match rest with
      | b1 :: rest1 =>
        if 0x80 ≤ b1 ∧ b1 < 0xC0 ∧ 0x80 ≤ (b0 - 0xC0) * 64 + (b1 - 0x80) then
          some ((b0 - 0xC0) * 64 + (b1 - 0x80), rest1)
        else none
      | [] => none
    else if b0 < 0xF0 then
      match rest with
      | b1 :: b2 :: rest2 =>
        if 0x80 ≤ b1 ∧ b1 < 0xC0 ∧ 0x80 ≤ b2 ∧ b2 < 0xC0 ∧
            0x800 ≤ (b0 - 0xE0) * 4096 + (b1 - 0x80) * 64 + (b2 - 0x80) ∧
            ¬(0xD800 ≤ (b0 - 0xE0) * 4096 + (b1 - 0x80) * 64 + (b2 - 0x80) ∧
              (b0 - 0xE0) * 4096 + (b1 - 0x80) * 64 + (b2 - 0x80) < 0xE000) then
          some ((b0 - 0xE0) * 4096 + (b1 - 0x80) * 64 + (b2 - 0x80), rest2)
        else none
      | _ => none
    else if b0 < 0xF8 then
      match rest with
      | b1 :: b2 :: b3 :: rest3 =>
        if 0x80 ≤ b1 ∧ b1 < 0xC0 ∧ 0x80 ≤ b2 ∧ b2 < 0xC0 ∧ 0x80 ≤ b3 ∧ b3 < 0xC0 ∧
            0x10000 ≤ (b0 - 0xF0) * 0x40000 + (b1 - 0x80) * 4096 + (b2 - 0x80) * 64 + (b3 - 0x80) ∧
            (b0 - 0xF0) * 0x40000 + (b1 - 0x80) * 4096 + (b2 - 0x80) * 64 + (b3 - 0x80) < 0x110000 then
          some ((b0 - 0xF0) * 0x40000 + (b1 - 0x80) * 4096 + (b2 - 0x80) * 64 + (b3 - 0x80), rest3)
        else none
      | _ => none
    else none

theorem utf8DecodeFirst_length {bs rest : List Nat} {c : Nat}
    (h : utf8DecodeFirst bs = some (c, rest)) : rest.length < bs.length := by
  unfold utf8DecodeFirst at h
  repeat' split at h
  all_goals simp_all
  all_goals omega

/-- Fuel-driven decoding loop; `utf8DecodeFirst` consumes at least one byte
per step, so fuel equal to the byte count suffices. -/
def utf8DecodeUncheckedAux : Nat → List Nat → List Char
  | 0, _ => []
  | fuel + 1, bs =>
    match utf8DecodeFirst bs with
    | none => []
    | some (c, rest) => Char.ofNat c :: utf8DecodeUncheckedAux fuel rest

/-- Total reinterpretation of a byte sequence as a list of characters.
On the valid UTF-8 sequences produced by `utf8Encode` this recovers the
original characters; on malformed input (which `str::from_utf8_unchecked`
leaves undefined) it simply stops. -/
def utf8DecodeUnchecked (bs : List Nat) : List Char :=
  utf8DecodeUncheckedAux bs.length bs

/-- Fuel-driven validation loop. -/
def utf8IsValidAux : Nat → List Nat → Bool
  | 0, bs => bs.isEmpty
  | fuel + 1, bs =>
    match utf8DecodeFirst bs with
    | none => bs.isEmpty
    | some (_, rest) => utf8IsValidAux fuel rest

/-- Check that a byte sequence is valid UTF-8 (every byte consumed by
successive scalar decodes). -/
def utf8IsValid (bs : List Nat) : Bool :=
  utf8IsValidAux bs.length bs

/-- Embedding of `pub struct KeyString(Bytes)`: the contents of the backing
byte buffer. Derived `Eq`/`PartialEq` on the Rust side compare these bytes;
`DecidableEq` plays that role here. -/
structure KeyString where
  bytes : List Nat
deriving DecidableEq

/-- Embedding of `impl From<String> for KeyString`: `Self(s.into())` stores
the UTF-8 bytes of the string. -/
def KeyString.fromString (s : String) : KeyString :=
  ⟨utf8Encode s⟩

/-- Embedding of `impl From<&str> for KeyString`:
`Self(s.to_string().into())`. -/
def KeyString.fromStr (s : String) : KeyString :=
  ⟨utf8Encode s⟩

/-- Embedding of `std::borrow::Cow<str>`: either a borrowed or an owned
string. -/
inductive Cow where
  | borrowed (s : String)
  | owned (s : String)

/-- Embedding of `Cow::into_owned`. -/
def Cow.into_owned : Cow → String
  | .borrowed s => s
  | .owned s => s

/-- Embedding of `impl From<Cow<str>> for KeyString`:
`Self(s.into_owned().into())`. -/
def KeyString.fromCow (c : Cow) : KeyString :=
  ⟨utf8Encode c.into_owned⟩

/-- Embedding of `KeyString::as_str`: reinterpret the stored bytes as a
string without any validation (`str::from_utf8_unchecked`). -/
def KeyString.as_str (k : KeyString) : String :=
  ⟨utf8DecodeUnchecked k.bytes⟩

/-- Embedding of `KeyString::into_bytes`: `self.0.to_vec().into()` copies
the contents out into an owned boxed slice; the contents are the stored
bytes. -/
def KeyString.into_bytes (k : KeyString) : List Nat :=
  k.bytes

/-- Embedding of `KeyString::to_bytes`: `self.0.clone()` returns a shared
handle on the backing buffer; its contents are the stored bytes. -/
def KeyString.to_bytes (k : KeyString) : List Nat :=
  k.bytes

/-- Embedding of `KeyString::is_empty`: `self.0.is_empty()`. -/
def KeyString.is_empty (k : KeyString) : Bool :=
  k.bytes.isEmpty

/-- Embedding of `KeyString::len`: `self.0.len()`. -/
def KeyString.len (k : KeyString) : Nat :=
  k.bytes.length

/-- Embedding of `impl From<KeyString> for String`:
`s.as_str().to_string()`. -/
def KeyString.intoString (k : KeyString) : String :=
  k.as_str

/-- Embedding of `impl PartialEq<str> for KeyString`:
`self.as_str()[..].eq(that)`. -/
def KeyString.eqStr (k : KeyString) (that : String) : Bool :=
  k.as_str == that

/-- Comparison of a plain string against a key through the string view, the
reverse direction of the equality consistency law. -/
def strEqKey (s : String) (k : KeyString) : Bool :=
  s == k.as_str

/-- Embedding of the serde data model restricted to the scalar shapes the
spec distinguishes: a text scalar versus non-text scalars (numeric,
boolean). -/
inductive SValue where
  | str (s : String)
  | int (n : Int)
  | boolean (b : Bool)
deriving DecidableEq

/-- Embedding of the serde error produced when deserialization meets an
unexpected shape. -/
inductive SerdeError where
  | deserializationError
deriving DecidableEq

/-- Modelled from the spec: the external `String::deserialize` step that
`KeyString` delegates to reads exactly one text scalar and fails with a
`DeserializationError` on any other shape. -/
def strDeserialize : SValue → Except SerdeError String
  | .str s => .ok s
  | _ => .error .deserializationError

/-- Embedding of `impl Serialize for KeyString`:
`serializer.serialize_str(self.as_str())` emits one text scalar. -/
def KeyString.serialize (k : KeyString) : SValue :=
  .str k.as_str

/-- Embedding of `impl Deserialize for KeyString`:
`let string = String::deserialize(deserializer)?; Ok(string.into())`. -/
def KeyString.deserialize (v : SValue) : Except SerdeError KeyString :=
  match strDeserialize v with
  | .ok s => .ok (KeyString.fromString s)
  | .error e => .error e

/-- Model of a `std::hash::Hasher`: an arbitrary state type transformed by
feeding in bytes. -/
structure Hasher (σ : Type) where
  write : List Nat → σ → σ

/-- Hashing of a Rust `str`/`String`: the standard library feeds the UTF-8
bytes followed by a `0xFF` terminator into the hasher. -/
def hashStr {σ : Type} (h : Hasher σ) (s : String) (st : σ) : σ :=
  h.write (utf8Encode s ++ [0xFF]) st

/-- Embedding of `impl Hash for KeyString`: `self.as_str().hash(state)`
delegates to string hashing of the string view. -/
def KeyString.hash {σ : Type} (h : Hasher σ) (k : KeyString) (st : σ) : σ :=
  hashStr h k.as_str st

/-- Lexicographic strict comparison of byte sequences: the order used by the
derived `Ord`/`PartialOrd` on `KeyString`, which compare the raw `Bytes`
buffers as byte slices. -/
def bytesLt : List Nat → List Nat → Bool
  | _, [] => false
  | [], _ :: _ => true
  | a :: as, b :: bs => if a < b then true else if b < a then false else bytesLt as bs

/-- Embedding of the derived `PartialOrd`/`Ord` strict comparison on
`KeyString`: lexicographic comparison of the raw byte buffers. -/
def KeyString.lt (a b : KeyString) : Bool :=
  bytesLt a.bytes b.bytes

/-- Keys reachable through the construction paths of the type: the three
`From` conversions and deserialization. Derived `Clone` produces a value
equal to its source, so reachability is closed under cloning as well. -/
inductive KeyString.Reachable : KeyString → Prop where
  | of_str (s : String) : KeyString.Reachable (KeyString.fromStr s)
  | of_string (s : String) : KeyString.Reachable (KeyString.fromString s)
  | of_cow (c : Cow) : KeyString.Reachable (KeyString.fromCow c)
  | of_deserialize (v : SValue) (k : KeyString) :
      KeyString.deserialize v = .ok k → KeyString.Reachable k

/-- Representation-level model of `bytes::Bytes` for the buffer-sharing
claim: a buffer is an allocation identifier together with its contents.
`Bytes::clone` is a reference-counted shallow clone per the bytes crate
contract: it yields a handle on the same allocation, while any copying
constructor would mint a fresh allocation identifier. -/
structure BytesRepr where
  allocId : Nat
  data : List Nat

/-- Shallow clone of a shared buffer: same allocation, no copy. -/
def BytesRepr.clone (b : BytesRepr) : BytesRepr :=
  b

/-- Representation-level model of `KeyString` carrying its backing buffer. -/
structure KeyStringRepr where
  buf : BytesRepr

/-- Embedding of the derived `Clone` for `KeyString`: clone the single
`Bytes` field. -/
def KeyStringRepr.clone (k : KeyStringRepr) : KeyStringRepr :=
  ⟨k.buf.clone⟩

/-- Representation-level embedding of `KeyString::to_bytes`:
`self.0.clone()`. -/
def KeyStringRepr.to_bytes (k : KeyStringRepr) : BytesRepr :=
  k.buf.clone

theorem utf8DecodeFirst_encode {c : Nat}
    (hv : c < 0xD800 ∨ (0xDFFF < c ∧ c < 0x110000)) (rest : List Nat) :
    utf8DecodeFirst (utf8EncodeCodepoint c ++ rest) = some (c, rest) := by
  unfold utf8EncodeCodepoint
  rcases Nat.lt_or_ge c 0x80 with h1 | h1
  · rw [if_pos h1]
    simp only [List.cons_append, List.nil_append, utf8DecodeFirst]
    rw [if_pos h1]
  · rw [if_neg (by omega)]
    rcases Nat.lt_or_ge c 0x800 with h2 | h2
    · rw [if_pos h2]
      simp only [List.cons_append, List.nil_append, utf8DecodeFirst]
      rw [if_neg (by omega), if_neg (by omega), if_pos (by omega), if_pos (by omega)]
      have he : (0xC0 + c / 64 - 0xC0) * 64 + (0x80 + c % 64 - 0x80) = c := by omega
      rw [he]
    · rw [if_neg (by omega)]
      rcases Nat.lt_or_ge c 0x10000 with h3 | h3
      · rw [if_pos h3]
        simp only [List.cons_append, List.nil_append, utf8DecodeFirst]
        rw [if_neg (by omega), if_neg (by omega), if_neg (by omega), if_pos (by omega),
          if_pos (by omega)]
        have he : (0xE0 + c / 4096 - 0xE0) * 4096 + (0x80 + c / 64 % 64 - 0x80) * 64 +
            (0x80 + c % 64 - 0x80) = c := by omega
        rw [he]
      · rw [if_neg (by omega)]
        simp only [List.cons_append, List.nil_append, utf8DecodeFirst]
        rw [if_neg (by omega), if_neg (by omega), if_neg (by omega), if_neg (by omega),
          if_pos (by omega), if_pos (by omega)]
        have he : (0xF0 + c / 0x40000 - 0xF0) * 0x40000 + (0x80 + c / 4096 % 64 - 0x80) * 4096 +
            (0x80 + c / 64 % 64 - 0x80) * 64 + (0x80 + c % 64 - 0x80) = c := by omega
        rw [he]

theorem utf8EncodeCodepoint_length_pos (c : Nat) : 0 < (utf8EncodeCodepoint c).length := by
  unfold utf8EncodeCodepoint
  repeat' split
  all_goals simp

theorem char_toNat_valid (c : Char) :
    c.toNat < 0xD800 ∨ (0xDFFF < c.toNat ∧ c.toNat < 0x110000) := c.valid

theorem utf8DecodeUncheckedAux_encode (l : List Char) :
    ∀ fuel : Nat, (l.flatMap (fun c => utf8EncodeCodepoint c.toNat)).length ≤ fuel →
      utf8DecodeUncheckedAux fuel (l.flatMap (fun c => utf8EncodeCodepoint c.toNat)) = l := by
  induction l with
  | nil =>
    intro fuel _
    cases fuel <;> simp [utf8DecodeUncheckedAux, utf8DecodeFirst]
  | cons c cs ih =>
    intro fuel hfuel
    rw [List.flatMap_cons] at hfuel ⊢
    have hpos := utf8EncodeCodepoint_length_pos c.toNat
    rw [List.length_append] at hfuel
    cases fuel with
    | zero => omega
    | succ f =>
      rw [utf8DecodeUncheckedAux, utf8DecodeFirst_encode (char_toNat_valid c)]
      simp only [ih f (by omega), Char.ofNat_toNat]

theorem utf8DecodeUnchecked_encode (s : String) :
    utf8DecodeUnchecked (utf8Encode s) = s.data := by
  exact utf8DecodeUncheckedAux_encode s.data _ (Nat.le_refl _)

theorem as_str_fromString (s : String) : (KeyString.fromString s).as_str = s := by
  apply String.ext
  exact utf8DecodeUnchecked_encode s

theorem utf8IsValidAux_encode (l : List Char) :
    ∀ fuel : Nat, (l.flatMap (fun c => utf8EncodeCodepoint c.toNat)).length ≤ fuel →
      utf8IsValidAux fuel (l.flatMap (fun c => utf8EncodeCodepoint c.toNat)) = true := by
  induction l with
  | nil =>
    intro fuel _
    cases fuel <;> simp [utf8IsValidAux, utf8DecodeFirst]
  | cons c cs ih =>
    intro fuel hfuel
    rw [List.flatMap_cons] at hfuel ⊢
    have hpos := utf8EncodeCodepoint_length_pos c.toNat
    rw [List.length_append] at hfuel
    cases fuel with
    | zero => omega
    | succ f =>
      rw [utf8IsValidAux, utf8DecodeFirst_encode (char_toNat_valid c)]
      simpa using ih f (by omega)

theorem utf8IsValid_encode (s : String) : utf8IsValid (utf8Encode s) = true :=
  utf8IsValidAux_encode s.data _ (Nat.le_refl _)

theorem bytesLt_append_left (e x y : List Nat) :
    bytesLt (e ++ x) (e ++ y) = bytesLt x y := by
  induction e with
  | nil => rfl
  | cons a as ih => simp [bytesLt, ih, Nat.lt_irrefl]

theorem bytesLt_asymm {u v : List Nat} (h : bytesLt u v = true) : bytesLt v u = false := by
  induction u generalizing v with
  | nil =>
    cases v with
    | nil => simp [bytesLt] at h
    | cons b bs => simp [bytesLt]
  | cons a as ih =>
    cases v with
    | nil => simp [bytesLt] at h
    | cons b bs =>
      simp only [bytesLt] at h ⊢
      split at h
      · rw [if_neg (by omega), if_pos (by omega)]
      · split at h
        · simp at h
        · rw [if_neg (by omega), if_neg (by omega)]
          exact ih h

set_option maxHeartbeats 1000000 in
theorem bytesLt_encode_lt {m n : Nat} (hmn : m < n) (xs ys : List Nat) :
    bytesLt (utf8EncodeCodepoint m ++ xs) (utf8EncodeCodepoint n ++ ys) = true := by
  unfold utf8EncodeCodepoint
  repeat' split
  all_goals simp only [List.cons_append, List.nil_append, bytesLt]
  all_goals repeat' split
  all_goals first | rfl | omega

theorem utf8EncodeCodepoint_exists_cons (c : Nat) :
    ∃ b bs, utf8EncodeCodepoint c = b :: bs := by
  unfold utf8EncodeCodepoint
  repeat' split
  all_goals exact ⟨_, _, rfl⟩

theorem char_lt_iff_toNat_lt (a b : Char) : a < b ↔ a.toNat < b.toNat := Iff.rfl

theorem char_eq_of_toNat_eq {a b : Char} (h : a.toNat = b.toNat) : a = b :=
  Char.ext (UInt32.ext h)

theorem bytesLt_flatMap_iff (l1 l2 : List Char) :
    bytesLt (l1.flatMap (fun c => utf8EncodeCodepoint c.toNat))
        (l2.flatMap (fun c => utf8EncodeCodepoint c.toNat)) = true ↔
      List.Lex (· < ·) l1 l2 := by
  induction l1 generalizing l2 with
  | nil =>
    cases l2 with
    | nil =>
      simp only [List.flatMap_nil, bytesLt]
      constructor
      · intro h; exact absurd h (by simp)
      · intro h; exact absurd h (List.Lex.not_nil_right _ _)
    | cons c2 cs2 =>
      simp only [List.flatMap_nil, List.flatMap_cons]
      obtain ⟨b, bs, hb⟩ := utf8EncodeCodepoint_exists_cons c2.toNat
      rw [hb]
      simp only [List.cons_append, bytesLt]
      constructor
      · intro _; exact List.Lex.nil
      · intro _; trivial
  | cons c1 cs1 ih =>
    cases l2 with
    | nil =>
      simp only [List.flatMap_nil, List.flatMap_cons]
      obtain ⟨b, bs, hb⟩ := utf8EncodeCodepoint_exists_cons c1.toNat
      rw [hb]
      simp only [List.cons_append, bytesLt]
      constructor
      · intro h; exact absurd h (by simp)
      · intro h; exact absurd h (List.Lex.not_nil_right _ _)
    | cons c2 cs2 =>
      simp only [List.flatMap_cons]
      rcases Nat.lt_trichotomy c1.toNat c2.toNat with h | h | h
      · constructor
        · intro _; exact List.Lex.rel ((char_lt_iff_toNat_lt c1 c2).mpr h)
        · intro _; exact bytesLt_encode_lt h _ _
      · have hc : c1 = c2 := char_eq_of_toNat_eq h
        subst hc
        rw [bytesLt_append_left]
        rw [ih cs2]
        exact (List.Lex.cons_iff).symm
      · have hlt := bytesLt_encode_lt h
          (cs2.flatMap (fun c => utf8EncodeCodepoint c.toNat))
          (cs1.flatMap (fun c => utf8EncodeCodepoint c.toNat))
        constructor
        · intro hx
          exact absurd (bytesLt_asymm hx) (by simp [hlt])
        · intro hx
          cases hx with
          | cons h2 => exact absurd h (Nat.lt_irrefl _)
          | rel h2 => exact absurd ((char_lt_iff_toNat_lt c1 c2).mp h2) (by omega)

theorem string_lt_iff_lex (a b : String) : a < b ↔ List.Lex (· < ·) a.data b.data := by
  rw [String.lt_iff_toList_lt]
  exact Iff.rfl


theorem char_utf8Size_eq (c : Char) : c.utf8Size =
    if c.toNat ≤ 127 then 1 else if c.toNat ≤ 2047 then 2
    else if c.toNat ≤ 65535 then 3 else 4 := by
  simp only [Char.utf8Size]
  exact if_congr ⟨fun h => h, fun h => h⟩ rfl
    (if_congr ⟨fun h => h, fun h => h⟩ rfl
      (if_congr ⟨fun h => h, fun h => h⟩ rfl rfl))

theorem utf8EncodeCodepoint_length (c : Char) :
    (utf8EncodeCodepoint c.toNat).length = c.utf8Size := by
  rw [char_utf8Size_eq]
  unfold utf8EncodeCodepoint
  repeat' split
  all_goals first | rfl | omega

theorem utf8Encode_length (s : String) : (utf8Encode s).length = s.utf8ByteSize := by
  show (s.data.flatMap (fun c => utf8EncodeCodepoint c.toNat)).length = s.utf8ByteSize
  have hgo : s.utf8ByteSize = String.utf8ByteSize.go s.data := rfl
  rw [hgo]
  induction s.data with
  | nil => rfl
  | cons c cs ih =>
    rw [List.flatMap_cons, List.length_append, ih]
    show _ = String.utf8ByteSize.go cs + c.utf8Size
    rw [utf8EncodeCodepoint_length]
    omega

theorem utf8Encode_isEmpty (s : String) : (utf8Encode s).isEmpty = s.isEmpty := by
  cases hse : s.isEmpty with
  | true =>
    have he : s = "" := (String.isEmpty_iff _).mp hse
    subst he
    rfl
  | false =>
    cases hd : s.data with
    | nil =>
      exact absurd ((String.isEmpty_iff _).mpr (String.ext hd)) (by simp [hse])
    | cons c cs =>
      show (s.data.flatMap (fun c => utf8EncodeCodepoint c.toNat)).isEmpty = false
      rw [hd, List.flatMap_cons]
      obtain ⟨b, bs, hb⟩ := utf8EncodeCodepoint_exists_cons c.toNat
      rw [hb]
      rfl

theorem reachable_exists {k : KeyString} (h : k.Reachable) :
    ∃ s : String, k = KeyString.fromString s := by
  cases h with
  | of_str s => exact ⟨s, rfl⟩
  | of_string s => exact ⟨s, rfl⟩
  | of_cow c => exact ⟨c.into_owned, rfl⟩
  | of_deserialize v k hv =>
    cases v with
    | str s =>
      refine ⟨s, ?_⟩
      simp [KeyString.deserialize, strDeserialize] at hv
      exact hv.symm
    | int n => simp [KeyString.deserialize, strDeserialize] at hv
    | boolean b => simp [KeyString.deserialize, strDeserialize] at hv

/-- C1: for every text value `s`, hashing the key constructed from `s`
produces exactly the same hash as hashing `s` itself under the shared
hashing scheme, for any hasher and any hasher state. -/
theorem C1_hash_consistency {σ : Type} (h : Hasher σ) (s : String) (st : σ) :
    KeyString.hash h (KeyString.fromString s) st = hashStr h s st := by
  unfold KeyString.hash
  rw [as_str_fromString]

/-- C2: serializing the key constructed from `s` and then deserializing the
result yields the original key, and serialization emits exactly one text
scalar. -/
theorem C2_serde_roundtrip (s : String) :
    KeyString.deserialize (KeyString.serialize (KeyString.fromString s)) =
      Except.ok (KeyString.fromString s) ∧
    ∃ t : String, KeyString.serialize (KeyString.fromString s) = SValue.str t := by
  constructor
  · show KeyString.deserialize (SValue.str (KeyString.fromString s).as_str) = _
    rw [as_str_fromString]
    rfl
  · exact ⟨(KeyString.fromString s).as_str, rfl⟩

/-- C3: every construction path (from an owned string, a borrowed slice, a
copy-on-write string, or deserialized text) produces a key whose stored
bytes are valid UTF-8, and on every such reachable key the unchecked
reinterpretation in `as_str` reads exactly the UTF-8 encoding of its result,
so it never reads invalid UTF-8. Totality of the constructors is inherent:
each is a total function of its input. -/
theorem C3_utf8_invariant (k : KeyString) (h : k.Reachable) :
    utf8IsValid k.bytes = true ∧ utf8Encode k.as_str = k.bytes := by
  obtain ⟨s, rfl⟩ := reachable_exists h
  refine ⟨utf8IsValid_encode s, ?_⟩
  rw [as_str_fromString]
  rfl

/-- Witness for C3 at the concrete key built from "abc". -/
theorem C3_utf8_invariant_witness :
    utf8IsValid (KeyString.fromString "abc").bytes = true ∧
    utf8Encode (KeyString.fromString "abc").as_str = (KeyString.fromString "abc").bytes :=
  C3_utf8_invariant (KeyString.fromString "abc") (KeyString.Reachable.of_string "abc")

/-- C4: equality between a key and a plain text value holds in both
directions: the key built from `s` equals `s` under the `PartialEq<str>`
comparison, and `s` equals the key under the string-view comparison. -/
theorem C4_eq_consistency (s : String) :
    KeyString.eqStr (KeyString.fromString s) s = true ∧
    strEqKey s (KeyString.fromString s) = true := by
  unfold KeyString.eqStr strEqKey
  rw [as_str_fromString]
  simp

/-- C5: the derived byte-buffer ordering on keys agrees with standard text
ordering: the key built from `a` is strictly below the key built from `b`
exactly when `a < b` as strings. -/
theorem C5_order_consistency (a b : String) :
    KeyString.lt (KeyString.fromString a) (KeyString.fromString b) = true ↔ a < b := by
  rw [string_lt_iff_lex]
  exact bytesLt_flatMap_iff a.data b.data

/-- C6: deserializing into a key succeeds exactly on a text scalar,
returning the key built from that text, and fails with a
`DeserializationError` on every other (numeric or boolean) scalar; no other
failure mode exists. -/
theorem C6_deserialize_text_only (v : SValue) :
    (∃ s : String, v = SValue.str s ∧
      KeyString.deserialize v = Except.ok (KeyString.fromString s)) ∨
    ((∀ s : String, v ≠ SValue.str s) ∧
      KeyString.deserialize v = Except.error SerdeError.deserializationError) := by
  cases v with
  | str s => exact Or.inl ⟨s, rfl, rfl⟩
  | int n => exact Or.inr ⟨(fun s hs => nomatch hs), rfl⟩
  | boolean b => exact Or.inr ⟨(fun s hs => nomatch hs), rfl⟩

/-- C7: converting a key back to an owned text value recovers the original
text, and rebuilding a key from that text yields an equal key. -/
theorem C7_conversion_identity (s : String) :
    KeyString.intoString (KeyString.fromString s) = s ∧
    KeyString.fromString (KeyString.intoString (KeyString.fromString s)) =
      KeyString.fromString s := by
  have h : KeyString.intoString (KeyString.fromString s) = s := as_str_fromString s
  exact ⟨h, by rw [h]⟩

/-- C8: the length of the key built from `s` is the UTF-8 byte length of
`s` (not its codepoint count) and its emptiness agrees with the emptiness
of `s`; concretely the key of the empty string has length 0 and is empty,
and the key of "café" has byte length 5 while "café" has 4 codepoints. -/
theorem C8_length_emptiness (s : String) :
    (KeyString.fromString s).len = s.utf8ByteSize ∧
    (KeyString.fromString s).is_empty = s.isEmpty ∧
    (KeyString.fromString "").len = 0 ∧
    (KeyString.fromString "").is_empty = true ∧
    (KeyString.fromString "café").len = 5 ∧
    ("café" : String).data.length = 4 := by
  refine ⟨utf8Encode_length s, utf8Encode_isEmpty s, ?_, ?_, ?_, ?_⟩
  · rfl
  · rfl
  · decide
  · decide

/-- C9: cloning a key shares the backing buffer instead of copying its
contents: at the representation level, the derived clone and the
`to_bytes` accessor both return a handle on the same allocation, with the
same contents, as the original key. -/
theorem C9_cheap_clone (k : KeyStringRepr) :
    (KeyStringRepr.clone k).buf.allocId = k.buf.allocId ∧
    (KeyStringRepr.clone k).buf.data = k.buf.data ∧
    (KeyStringRepr.to_bytes k).allocId = k.buf.allocId ∧
    (KeyStringRepr.to_bytes k).data = k.buf.data :=
  ⟨rfl, rfl, rfl, rfl⟩

/-- C10: on every reachable key both byte accessors agree with the textual
view: the owned buffer from `into_bytes` and the shared buffer from
`to_bytes` each contain exactly the UTF-8 encoding of `as_str`, and both
leave the stored contents unchanged. -/
theorem C10_bytes_accessors (k : KeyString) (h : k.Reachable) :
    k.into_bytes = utf8Encode k.as_str ∧ k.to_bytes = utf8Encode k.as_str ∧
    k.into_bytes = k.bytes ∧ k.to_bytes = k.bytes := by
  obtain ⟨s, rfl⟩ := reachable_exists h
  rw [as_str_fromString]
  exact ⟨rfl, rfl, rfl, rfl⟩

/-- Witness for C10 at the concrete key built from "ab". -/
theorem C10_bytes_accessors_witness :
    (KeyString.fromString "ab").into_bytes =
      utf8Encode (KeyString.fromString "ab").as_str ∧
    (KeyString.fromString "ab").to_bytes =
      utf8Encode (KeyString.fromString "ab").as_str ∧
    (KeyString.fromString "ab").into_bytes = (KeyString.fromString "ab").bytes ∧
    (KeyString.fromString "ab").to_bytes = (KeyString.fromString "ab").bytes :=
  C10_bytes_accessors (KeyString.fromString "ab") (KeyString.Reachable.of_string "ab")
